import Mathlib

/-
Shallow embedding of the bio_generator package (binary-io repository):
  - types.py  : type registry, entity model, symbol resolution
  - parser.py : model builders and the file/directory loading surface
Python dicts are modelled as association lists built by single insertions
(insertion keeps the first key position and replaces the value, as CPython
dicts do); fallible code returns Except; dynamically typed YAML scalars that
may be int or str are modelled by the sum type PyVal.
-/

/-- A dynamically typed Python value as it occurs in the validated YAML
document: an integer or a string. -/
inductive PyVal : Type where
  | int (n : Int)
  | str (s : String)
deriving DecidableEq, Repr

/-- Insert one key/value pair into a dict modelled as an association list:
if the key is present its value is replaced in place (CPython keeps the
original key position), otherwise the pair is appended. -/
def dictInsert {α : Type} (d : List (String × α)) (k : String) (v : α) :
    List (String × α) :=
  if d.any (fun e => e.1 == k) then
    d.map (fun e => if e.1 == k then (e.1, v) else e)
  else
    d ++ [(k, v)]

/-- Build a dict from a list of key/value pairs by repeated insertion,
exactly as a Python dict comprehension does: a later pair with the same key
overwrites the earlier value. -/
def dictOfPairs {α : Type} (l : List (String × α)) : List (String × α) :=
  l.foldl (fun d e => dictInsert d e.1 e.2) []

/-- Dict lookup: the first entry with the given key (keys of a built dict
are unique). -/
def dictLookup {α : Type} (d : List (String × α)) (k : String) : Option α :=
  (d.find? (fun e => e.1 == k)).map (fun e => e.2)

/-- Dict membership test, Python `k in d`. -/
def dictMem {α : Type} (d : List (String × α)) (k : String) : Bool :=
  d.any (fun e => e.1 == k)

/-- A Python for-loop that builds a list and may raise: left-to-right
traversal, first raise aborts the whole loop. -/
def mapE {α β : Type} (g : α → Except String β) : List α → Except String (List β)
  | [] => .ok []
  | x :: xs =>
    match g x with
    | .error e => .error e
    | .ok y =>
      match mapE g xs with
      | .error e => .error e
      | .ok ys => .ok (y :: ys)

/-! ## types.py -/

/-- Classification of protocol field types (types.py, class TypeKind). -/
inductive TypeKind : Type where
  | PRIMITIVE
  | ENUM
  | STRUCT
  | BYTES
  | STRING
  | ARRAY
  | BITFIELD
  | PADDING
deriving DecidableEq, Repr

/-- A built-in numeric type supported by binary-io (types.py, PrimitiveType). -/
structure PrimitiveType : Type where
  yaml_name : String
  cpp_type : String
  read_method : String
  write_method : String
  size : Nat
deriving DecidableEq, Repr

/-- All primitive types supported by binary-io.hpp (types.py, PRIMITIVES). -/
def PRIMITIVES : List (String × PrimitiveType) := dictOfPairs
  [ ("u8", ⟨"u8", "uint8_t", "read_u8", "write_u8", 1⟩)
  , ("u16", ⟨"u16", "uint16_t", "read_u16", "write_u16", 2⟩)
  , ("u32", ⟨"u32", "uint32_t", "read_u32", "write_u32", 4⟩)
  , ("u64", ⟨"u64", "uint64_t", "read_u64", "write_u64", 8⟩)
  , ("i8", ⟨"i8", "int8_t", "read_i8", "write_i8", 1⟩)
  , ("i16", ⟨"i16", "int16_t", "read_i16", "write_i16", 2⟩)
  , ("i32", ⟨"i32", "int32_t", "read_i32", "write_i32", 4⟩)
  , ("i64", ⟨"i64", "int64_t", "read_i64", "write_i64", 8⟩)
  , ("f32", ⟨"f32", "float", "read_f32", "write_f32", 4⟩)
  , ("f64", ⟨"f64", "double", "read_f64", "write_f64", 8⟩) ]

/-- Bitfield storage types (types.py, BITFIELD_TYPES). -/
def BITFIELD_TYPES : List (String × PrimitiveType) := dictOfPairs
  [ ("bitfield_u8", ⟨"u8", "uint8_t", "read_u8", "write_u8", 1⟩)
  , ("bitfield_u16", ⟨"u16", "uint16_t", "read_u16", "write_u16", 2⟩)
  , ("bitfield_u32", ⟨"u32", "uint32_t", "read_u32", "write_u32", 4⟩) ]

/-- One named constant within an enum (types.py, EnumValue). -/
structure EnumValue : Type where
  name : String
  value : Int
  description : String := ""
deriving DecidableEq, Repr

/-- An enumeration backed by a primitive integer type (types.py, EnumDef). -/
structure EnumDef : Type where
  name : String
  underlying_type : String
  values : List EnumValue := []
  description : String := ""
deriving DecidableEq, Repr

/-- One named bit-slice within a bitfield (types.py, BitDef). -/
structure BitDef : Type where
  name : String
  offset : Int
  width : Int
  description : String := ""
  enum_type : Option String := none
deriving DecidableEq, Repr

/-- A single field inside a struct definition (types.py, FieldDef).
The length and expected slots hold dynamically typed values, as the Python
attributes do at runtime. -/
structure FieldDef : Type where
  name : String
  type : String
  kind : TypeKind := .PRIMITIVE
  description : String := ""
  length : Option PyVal := none
  element_type : Option String := none
  expected : Option PyVal := none
  pad_size : Option Int := none
  condition : Option String := none
  bits : List BitDef := []
deriving DecidableEq, Repr

/-- A binary-serializable struct definition (types.py, StructDef). -/
structure StructDef : Type where
  name : String
  fields : List FieldDef := []
  description : String := ""
deriving DecidableEq, Repr

/-- Top-level protocol definition parsed from one YAML file
(types.py, ProtocolDef). The source attribute `namespace` is a Lean
keyword and is rendered as nspace. -/
structure ProtocolDef : Type where
  name : String
  nspace : String := ""
  byte_order : String := "little_endian"
  description : String := ""
  includes : List String := []
  enums : List EnumDef := []
  structs : List StructDef := []
  enum_map : List (String × EnumDef) := []
  struct_map : List (String × StructDef) := []
deriving DecidableEq, Repr

/-- types.py, ProtocolDef._resolve_kind: the ordered cascade classifying a
field type string. -/
def ProtocolDef._resolve_kind (p : ProtocolDef) (f : FieldDef) :
    Except String TypeKind :=
  if f.type == "padding" then .ok .PADDING
  else if dictMem BITFIELD_TYPES f.type then .ok .BITFIELD
  else if f.type == "bytes" then .ok .BYTES
  else if f.type == "string" then .ok .STRING
  else if f.type == "array" then .ok .ARRAY
  else if dictMem p.enum_map f.type then .ok .ENUM
  else if dictMem p.struct_map f.type then .ok .STRUCT
  else if dictMem PRIMITIVES f.type then .ok .PRIMITIVE
  else .error ("Unknown type \x27" ++ f.type ++ "\x27 in field \x27" ++ f.name ++ "\x27")

/-- One step of the resolution loop body `f.kind = self._resolve_kind(f)`:
the field with its kind attribute overwritten. -/
def resolveField (p : ProtocolDef) (f : FieldDef) : Except String FieldDef :=
  match p._resolve_kind f with
  | .error e => .error e
  | .ok k => .ok { f with kind := k }

/-- The inner loop of resolve over one struct. -/
def resolveStruct (p : ProtocolDef) (s : StructDef) : Except String StructDef :=
  match mapE (resolveField p) s.fields with
  | .error e => .error e
  | .ok fields => .ok { s with fields := fields }

/-- types.py, ProtocolDef.resolve, map-building phase: build the lookup
maps, after which every field kind is overwritten via _resolve_kind.
In the source the maps are built first
and the fields of the very struct objects stored in struct_map are then
mutated in place, so the final struct_map holds the resolved structs; the
functional translation rebuilds struct_map from the updated structs.
_resolve_kind reads only type and name attributes and the map keys, never a
kind, so batching the in-place updates is behaviour-preserving. -/
def ProtocolDef.withMaps (p : ProtocolDef) : ProtocolDef :=
  { p with enum_map := dictOfPairs (p.enums.map (fun e => (e.name, e)))
         , struct_map := dictOfPairs (p.structs.map (fun s => (s.name, s))) }

/-- The resolution pass itself; see the comment on withMaps, which holds the
first two statements of the method. -/
def ProtocolDef.resolve (p : ProtocolDef) : Except String ProtocolDef :=
  let p1 : ProtocolDef := p.withMaps
  match mapE (resolveStruct p1) p1.structs with
  | .error e => .error e
  | .ok structs =>
    .ok { p1 with structs := structs
                , struct_map := dictOfPairs (structs.map (fun s => (s.name, s))) }

/-! ## A model of the Python builtin int(s, base)

Covers the literal forms reaching the builders through the validated schema:
an optional sign, an optional base prefix, then digits; underscores and
surrounding whitespace are not modelled (the schema patterns exclude them). -/

/-- Numeric value of one digit character in bases up to 16, by code point
range: 0-9, a-f, A-F. -/
def hexDigitVal (c : Char) : Option Nat :=
  if 48 ≤ c.toNat ∧ c.toNat ≤ 57 then some (c.toNat - 48)
  else if 97 ≤ c.toNat ∧ c.toNat ≤ 102 then some (c.toNat - 87)
  else if 65 ≤ c.toNat ∧ c.toNat ≤ 70 then some (c.toNat - 55)
  else none

/-- Accumulate the value of a digit string in the given base; fails on a
character that is not a digit of the base. -/
def parseDigits (base : Nat) : List Char → Nat → Option Nat
  | [], acc => some acc
  | c :: rest, acc =>
    match hexDigitVal c with
    | some d => if d < base then parseDigits base rest (acc * base + d) else none
    | none => none

/-- Resolve the effective base and strip the base prefix, following
int(s, base) for base 0 (auto-detect; a leading zero on a nonzero decimal
literal is rejected) and base 16 (optional 0x/0X prefix). -/
def stripBase (base : Nat) (cs : List Char) : Option (Nat × List Char) :=
  if base = 0 then
    match cs with
    | '0' :: c :: rest =>
      if c = 'x' ∨ c = 'X' then some (16, rest)
      else if c = 'o' ∨ c = 'O' then some (8, rest)
      else if c = 'b' ∨ c = 'B' then some (2, rest)
      else if ('0' :: c :: rest).all (fun d => d = '0') then some (10, '0' :: c :: rest)
      else none
    | _ => some (10, cs)
  else if base = 16 then
    match cs with
    | '0' :: c :: rest => if c = 'x' ∨ c = 'X' then some (16, rest) else some (16, cs)
    | _ => some (16, cs)
  else some (base, cs)

/-- Model of the Python builtin int(s, base) on the literal subset above. -/
def pyInt (s : String) (base : Nat) : Option Int :=
  let cs := s.data
  let signed : Int × List Char :=
    match cs with
    | '-' :: rest => (-1, rest)
    | '+' :: rest => (1, rest)
    | _ => (1, cs)
  match stripBase base signed.2 with
  | none => none
  | some (b, digits) =>
    if digits.isEmpty then none
    else (parseDigits b digits 0).map (fun n => signed.1 * (n : Int))

/-! ## parser.py

The YAML reading and jsonschema validation are external collaborators; the
embedding starts from the validated raw document, modelled by the Raw
structures below whose shape follows schema.py. Keys that may be absent are
Option and read with the same defaults as the dict .get calls. -/

/-- One entry of a raw enum values list (schema: name plus integer or hex
string value). -/
structure RawEnumValue : Type where
  name : String
  value : PyVal
  description : Option String := none
deriving DecidableEq, Repr

/-- A raw enum mapping (schema: enums items). -/
structure RawEnum : Type where
  name : String
  type : String
  values : List RawEnumValue
  description : Option String := none
deriving DecidableEq, Repr

/-- A raw bit-slice mapping (schema: bits items). -/
structure RawBit : Type where
  name : String
  offset : Int
  width : Int
  description : Option String := none
  type : Option String := none
deriving DecidableEq, Repr

/-- A raw field mapping (schema: fields items). The length slot is an
integer under the schema; the builder also passes strings through, so it is
modelled as a dynamically typed value. -/
structure RawField : Type where
  name : String
  type : String
  description : Option String := none
  length : Option PyVal := none
  element_type : Option String := none
  expected : Option PyVal := none
  pad_size : Option Int := none
  condition : Option String := none
  bits : Option (List RawBit) := none
deriving DecidableEq, Repr

/-- A raw struct mapping (schema: structs items). -/
structure RawStruct : Type where
  name : String
  fields : List RawField
  description : Option String := none
deriving DecidableEq, Repr

/-- A raw validated protocol document (schema: top level plus the protocol
header mapping). -/
structure RawProtocol : Type where
  name : String
  nspace : Option String := none
  byte_order : Option String := none
  description : Option String := none
  includes : Option (List String) := none
  enums : Option (List RawEnum) := none
  structs : Option (List RawStruct) := none
deriving DecidableEq, Repr

/-- parser.py, _parse_int: convert a YAML value to int, supporting hex
strings; int(value, 0) raising ValueError is modelled as an error result. -/
def _parse_int (v : PyVal) : Except String Int :=
  match v with
  | .int n => .ok n
  | .str s =>
    match pyInt s 0 with
    | some n => .ok n
    | none => .error ("invalid literal for int: " ++ s)

/-- parser.py, _build_enum. -/
def _build_enum (raw : RawEnum) : Except String EnumDef :=
  match mapE (fun v =>
      match _parse_int v.value with
      | .error e => .error e
      | .ok n => .ok (⟨v.name, n, v.description.getD ""⟩ : EnumValue)) raw.values with
  | .error e => .error e
  | .ok values =>
    .ok { name := raw.name, underlying_type := raw.type, values := values
        , description := raw.description.getD "" }

/-- The local variable length of parser.py _build_field: an integer length
is replaced by str(length), anything else is kept. -/
def field_length (raw : RawField) : Option PyVal :=
  match raw.length with
  | some (.int n) => some (.str (toString n))
  | other => other

/-- Python str.startswith applied to the literal marker 0x: true exactly
when the first two characters are the lowercase 0 and x. -/
def py_startswith_0x (s : String) : Bool :=
  match s.data with
  | '0' :: 'x' :: _ => true
  | _ => false

/-- The local variable expected of parser.py _build_field: a string value
with the lowercase prefix 0x goes through int(expected, 16), every other
value is kept. -/
def field_expected (raw : RawField) : Except String (Option PyVal) :=
  match raw.expected with
  | some (.str s) =>
    if py_startswith_0x s then
      match pyInt s 16 with
      | some n => .ok (some (.int n))
      | none => .error ("invalid literal for int with base 16: " ++ s)
    else .ok (some (.str s))
  | other => .ok other

/-- parser.py, _build_field: normalizes an integer length to its decimal
string, converts a string expected value with a lowercase 0x prefix through
int(expected, 16), and builds the bit-slice list. -/
def _build_field (raw : RawField) : Except String FieldDef :=
  match field_expected raw with
  | .error e => .error e
  | .ok expected =>
    .ok { name := raw.name
        , type := raw.type
        , description := raw.description.getD ""
        , length := field_length raw
        , element_type := raw.element_type
        , expected := expected
        , pad_size := raw.pad_size
        , condition := raw.condition
        , bits := (raw.bits.getD []).map (fun b =>
            ⟨b.name, b.offset, b.width, b.description.getD "", b.type⟩) }

/-- parser.py, _build_struct. -/
def _build_struct (raw : RawStruct) : Except String StructDef :=
  match mapE _build_field raw.fields with
  | .error e => .error e
  | .ok fields =>
    .ok { name := raw.name, fields := fields, description := raw.description.getD "" }

/-- parser.py, load_protocol, starting from the validated document: build
the header, then all enums, then all structs, and only then run the
resolution pass. -/
def load_protocol (raw : RawProtocol) : Except String ProtocolDef :=
  let proto : ProtocolDef :=
    { name := raw.name
    , nspace := raw.nspace.getD ""
    , byte_order := raw.byte_order.getD "little_endian"
    , description := raw.description.getD ""
    , includes := raw.includes.getD [] }
  match mapE _build_enum (raw.enums.getD []) with
  | .error e => .error e
  | .ok enums =>
    match mapE _build_struct (raw.structs.getD []) with
    | .error e => .error e
    | .ok structs =>
      ProtocolDef.resolve { proto with enums := enums, structs := structs }

/-- One directory entry: file stem, extension (without the dot), and the
validated document the file parses to. -/
structure DirFile : Type where
  stem : String
  ext : String
  content : RawProtocol
deriving DecidableEq, Repr

/-- Boolean lexicographic comparison on character lists. -/
def charListLe : List Char → List Char → Bool
  | [], _ => true
  | _ :: _, [] => false
  | a :: as, b :: bs =>
    if a.toNat < b.toNat then true
    else if b.toNat < a.toNat then false
    else charListLe as bs

/-- Boolean lexicographic comparison on strings, by code point. -/
def strLe (a b : String) : Bool := charListLe a.data b.data

/-- Insert into a stem-sorted list, keeping earlier equal stems first. -/
def insertByStem (f : DirFile) : List DirFile → List DirFile
  | [] => [f]
  | g :: gs => if strLe f.stem g.stem then f :: g :: gs else g :: insertByStem f gs

/-- sorted(directory.glob(pattern)): all glob results share one extension,
so path order is stem order; modelled by insertion sort on the stem. -/
def sortByStem (l : List DirFile) : List DirFile := l.foldr insertByStem []

/-- The files load_protocols_from_dir visits, in order: the sorted .yaml
files, then the sorted .yml files whose stem has no .yaml sibling in the
directory. -/
def selectedFiles (files : List DirFile) : List DirFile :=
  sortByStem (files.filter (fun f => f.ext == "yaml"))
    ++ (sortByStem (files.filter (fun f => f.ext == "yml"))).filter
         (fun f => !(files.any (fun g => g.stem == f.stem && g.ext == "yaml")))

/-- parser.py, load_protocols_from_dir: load every selected file in order
(the two Python append loops are one pass over the concatenation, with the
same first-raise semantics), and reject an empty result list. The directory
existence check is external and the directory is given as its listing. -/
def load_protocols_from_dir (dirName : String) (files : List DirFile) :
    Except String (List ProtocolDef) :=
  match mapE (fun f => load_protocol f.content) (selectedFiles files) with
  | .error e => .error e
  | .ok protocols =>
    if protocols.isEmpty then .error ("No YAML files found in " ++ dirName)
    else .ok protocols

/-- __main__.py, main, directory branch: the units for which
generate_to_file is reached. When the loader raises, main either returns 1
from the ParseError handler or lets the exception escape; in both cases the
generation loop never runs and no unit yields an artifact. -/
def mainCompiledUnits (dirName : String) (files : List DirFile) : List String :=
  match load_protocols_from_dir dirName files with
  | .ok protocols => protocols.map (fun p => p.name)
  | .error _ => []

/-! ## General lemmas about the loop and dict models -/

theorem mapE_ok_length {α β : Type} {g : α → Except String β} :
    ∀ {xs : List α} {ys : List β}, mapE g xs = .ok ys → ys.length = xs.length := by
  intro xs
  induction xs with
  | nil => intro ys h; simp [mapE] at h; simp [← h]
  | cons x xs ih =>
    intro ys h
    simp only [mapE] at h
    cases hx : g x with
    | error e => rw [hx] at h; exact absurd h (by simp)
    | ok y =>
      rw [hx] at h
      cases hxs : mapE g xs with
      | error e => rw [hxs] at h; exact absurd h (by simp)
      | ok ys0 =>
        rw [hxs] at h
        simp at h
        subst h
        simp [ih hxs]

theorem mapE_ok_mem {α β : Type} {g : α → Except String β} :
    ∀ {xs : List α} {ys : List β}, mapE g xs = .ok ys →
      ∀ b ∈ ys, ∃ a ∈ xs, g a = .ok b := by
  intro xs
  induction xs with
  | nil =>
    intro ys h
    simp [mapE] at h
    subst h
    simp
  | cons x xs ih =>
    intro ys h
    simp only [mapE] at h
    cases hx : g x with
    | error e => rw [hx] at h; exact absurd h (by simp)
    | ok y =>
      rw [hx] at h
      cases hxs : mapE g xs with
      | error e => rw [hxs] at h; exact absurd h (by simp)
      | ok ys0 =>
        rw [hxs] at h
        simp at h
        subst h
        intro b hb
        rcases List.mem_cons.1 hb with hb | hb
        · exact ⟨x, List.mem_cons_self x xs, by rw [hb]; exact hx⟩
        · rcases ih hxs b hb with ⟨a, ha, hga⟩
          exact ⟨a, List.mem_cons_of_mem x ha, hga⟩

theorem mapE_ok_forall {α β : Type} {g : α → Except String β} :
    ∀ {xs : List α} {ys : List β}, mapE g xs = .ok ys →
      ∀ a ∈ xs, ∃ b, g a = .ok b := by
  intro xs
  induction xs with
  | nil => intro ys _ a ha; simp at ha
  | cons x xs ih =>
    intro ys h
    simp only [mapE] at h
    cases hx : g x with
    | error e => rw [hx] at h; exact absurd h (by simp)
    | ok y =>
      rw [hx] at h
      cases hxs : mapE g xs with
      | error e => rw [hxs] at h; exact absurd h (by simp)
      | ok ys0 =>
        intro a ha
        rcases List.mem_cons.1 ha with ha | ha
        · exact ⟨y, by rw [ha]; exact hx⟩
        · exact ih hxs a ha

theorem mapE_ok_get {α β : Type} {g : α → Except String β} :
    ∀ {xs : List α} {ys : List β}, mapE g xs = .ok ys →
      ∀ (i : Nat) (a : α), xs[i]? = some a →
        ∃ b, ys[i]? = some b ∧ g a = .ok b := by
  intro xs
  induction xs with
  | nil => intro ys _ i a ha; simp at ha
  | cons x xs ih =>
    intro ys h
    simp only [mapE] at h
    cases hx : g x with
    | error e => rw [hx] at h; exact absurd h (by simp)
    | ok y =>
      rw [hx] at h
      cases hxs : mapE g xs with
      | error e => rw [hxs] at h; exact absurd h (by simp)
      | ok ys0 =>
        rw [hxs] at h
        simp at h
        subst h
        intro i a ha
        cases i with
        | zero => simp at ha; exact ⟨y, by simp, by simp [← ha, hx]⟩
        | succ n =>
          simp at ha
          rcases ih hxs n a ha with ⟨b, hb, hgb⟩
          exact ⟨b, by simpa using hb, hgb⟩

theorem mapE_fix {α : Type} {g : α → Except String α} :
    ∀ {xs : List α}, (∀ a ∈ xs, g a = .ok a) → mapE g xs = .ok xs := by
  intro xs
  induction xs with
  | nil => intro _; rfl
  | cons x xs ih =>
    intro h
    have hx : g x = .ok x := h x (by simp)
    have hxs : mapE g xs = .ok xs := ih (fun a ha => h a (by simp [ha]))
    simp [mapE, hx, hxs]

theorem mapE_ok_map_eq {α β γ : Type} {g : α → Except String β}
    {u : α → γ} {v : β → γ} (hpres : ∀ a b, g a = .ok b → v b = u a) :
    ∀ {xs : List α} {ys : List β}, mapE g xs = .ok ys → ys.map v = xs.map u := by
  intro xs
  induction xs with
  | nil => intro ys h; simp [mapE] at h; simp [← h]
  | cons x xs ih =>
    intro ys h
    simp only [mapE] at h
    cases hx : g x with
    | error e => rw [hx] at h; exact absurd h (by simp)
    | ok y =>
      rw [hx] at h
      cases hxs : mapE g xs with
      | error e => rw [hxs] at h; exact absurd h (by simp)
      | ok ys0 =>
        rw [hxs] at h
        simp at h
        subst h
        simp [hpres x y hx, ih hxs]

theorem findQ_append {α : Type} (p : α → Bool) :
    ∀ (l₁ l₂ : List α), (l₁ ++ l₂).find? p =
      match l₁.find? p with
      | some x => some x
      | none => l₂.find? p := by
  intro l₁ l₂
  induction l₁ with
  | nil => simp
  | cons x l ih =>
    by_cases hx : p x
    · simp [List.find?, hx]
    · simp only [List.cons_append, List.find?, hx]
      simpa [Bool.not_eq_true] using ih

theorem dictMem_false_find {α : Type} {d : List (String × α)} {k : String}
    (h : dictMem d k = false) : d.find? (fun e => e.1 == k) = none := by
  rw [List.find?_eq_none]
  intro e he hk
  have hmem : dictMem d k = true := by
    unfold dictMem
    exact List.any_eq_true.2 ⟨e, he, hk⟩
  rw [h] at hmem
  exact Bool.false_ne_true hmem

theorem updKeys {α : Type} (d : List (String × α)) (k : String) (v : α)
    (k' : String) :
    (d.map (fun e => if e.1 == k then (e.1, v) else e)).any (fun e => e.1 == k')
      = d.any (fun e => e.1 == k') := by
  induction d with
  | nil => simp
  | cons x d ih =>
    simp only [List.map_cons, List.any_cons]
    rw [ih]
    congr 1
    by_cases hx : x.1 = k <;> simp [hx]

theorem dictInsert_mem {α : Type} (d : List (String × α)) (k : String) (v : α)
    (k' : String) :
    dictMem (dictInsert d k v) k' = (dictMem d k' || (k == k')) := by
  unfold dictInsert dictMem
  by_cases hm : d.any (fun e => e.1 == k) = true
  · rw [if_pos hm, updKeys]
    by_cases hk : k = k'
    · subst hk
      rw [hm]
      simp
    · have hkf : (k == k') = false := by simpa using hk
      rw [hkf, Bool.or_false]
  · rw [if_neg hm, List.any_append]
    simp

theorem dictMem_ofPairs {α : Type} (l : List (String × α)) (k : String) :
    dictMem (dictOfPairs l) k = l.any (fun e => e.1 == k) := by
  induction l using List.reverseRecOn with
  | nil => simp [dictOfPairs, dictMem]
  | append_singleton l e ih =>
    have : dictOfPairs (l ++ [e]) = dictInsert (dictOfPairs l) e.1 e.2 := by
      simp [dictOfPairs, List.foldl_append]
    rw [this, dictInsert_mem, ih, List.any_append]
    simp

theorem updFind_eq {α : Type} (d : List (String × α)) (k : String) (v : α)
    (hm : d.any (fun e => e.1 == k) = true) :
    ((d.map (fun e => if e.1 == k then (e.1, v) else e)).find?
        (fun e => e.1 == k)).map (fun e => e.2) = some v := by
  induction d with
  | nil => simp at hm
  | cons x d ih =>
    by_cases hx : x.1 = k
    · have hxt : (x.1 == k) = true := by simpa using hx
      simp only [List.map_cons, hxt, if_true]
      rw [List.find?_cons_of_pos _ (by simpa using hx)]
      simp
    · have hxf : (x.1 == k) = false := by simpa using hx
      have hm' : d.any (fun e => e.1 == k) = true := by
        simp only [List.any_cons, hxf, Bool.false_or] at hm
        exact hm
      simp only [List.map_cons, hxf, Bool.false_eq_true, if_false]
      rw [List.find?_cons_of_neg _ (by simpa using hx)]
      exact ih hm'

theorem updFind_ne {α : Type} (d : List (String × α)) (k : String) (v : α)
    (k' : String) (hk : ¬ k' = k) :
    (d.map (fun e => if e.1 == k then (e.1, v) else e)).find? (fun e => e.1 == k')
      = d.find? (fun e => e.1 == k') := by
  induction d with
  | nil => simp
  | cons x d ih =>
    by_cases hx : x.1 = k
    · have hxt : (x.1 == k) = true := by simpa using hx
      have hne : ¬ x.1 = k' := by rw [hx]; exact fun h => hk h.symm
      simp only [List.map_cons, hxt, if_true]
      rw [List.find?_cons_of_neg _ (by simpa using hne),
        List.find?_cons_of_neg _ (by simpa using hne)]
      exact ih
    · have hxf : (x.1 == k) = false := by simpa using hx
      simp only [List.map_cons, hxf, Bool.false_eq_true, if_false]
      by_cases hx' : x.1 = k'
      · rw [List.find?_cons_of_pos _ (by simpa using hx'),
          List.find?_cons_of_pos _ (by simpa using hx')]
      · rw [List.find?_cons_of_neg _ (by simpa using hx'),
          List.find?_cons_of_neg _ (by simpa using hx')]
        exact ih

theorem dictLookup_insert {α : Type} (d : List (String × α)) (k : String) (v : α)
    (k' : String) :
    dictLookup (dictInsert d k v) k' =
      if k' = k then some v else dictLookup d k' := by
  unfold dictInsert dictLookup
  by_cases hm : d.any (fun e => e.1 == k) = true
  · rw [if_pos hm]
    by_cases hk : k' = k
    · subst hk
      rw [if_pos rfl]
      exact updFind_eq d k' v hm
    · rw [if_neg hk, updFind_ne d k v k' hk]
  · rw [if_neg hm, findQ_append]
    rw [Bool.not_eq_true] at hm
    have hfind : d.find? (fun e => e.1 == k) = none :=
      dictMem_false_find (d := d) (k := k) hm
    by_cases hk : k' = k
    · subst hk
      rw [hfind, if_pos rfl]
      rw [List.find?_cons_of_pos _ (by simp)]
      simp
    · rw [if_neg hk]
      cases hd : d.find? (fun e => e.1 == k') with
      | none =>
        rw [List.find?_cons_of_neg _ (by simpa using fun h => hk h.symm)]
        simp
      | some x => simp

theorem dictLookup_ofPairs {α : Type} (l : List (String × α)) (k : String) :
    dictLookup (dictOfPairs l) k =
      (l.reverse.find? (fun e => e.1 == k)).map (fun e => e.2) := by
  induction l using List.reverseRecOn with
  | nil => simp [dictOfPairs, dictLookup]
  | append_singleton l e ih =>
    have h1 : dictOfPairs (l ++ [e]) = dictInsert (dictOfPairs l) e.1 e.2 := by
      simp [dictOfPairs, List.foldl_append]
    rw [h1, dictLookup_insert, ih]
    simp only [List.reverse_append, List.reverse_singleton, List.singleton_append,
      List.find?]
    by_cases hk : k = e.1
    · have : (e.1 == k) = true := by simpa using hk.symm
      simp [hk, this]
    · have : (e.1 == k) = false := by simpa using fun h => hk h.symm
      simp [hk, this]

theorem mem_insertByStem {f a : DirFile} :
    ∀ {l : List DirFile}, a ∈ insertByStem f l ↔ a = f ∨ a ∈ l := by
  intro l
  induction l with
  | nil => simp [insertByStem]
  | cons g gs ih =>
    unfold insertByStem
    by_cases h : strLe f.stem g.stem = true
    · simp [h]
    · simp only [h, Bool.false_eq_true, if_false, List.mem_cons, ih]
      tauto

theorem sortByStem_perm : ∀ (l : List DirFile), (sortByStem l).Perm l := by
  intro l
  induction l with
  | nil => simp [sortByStem]
  | cons x l ih =>
    have hstep : sortByStem (x :: l) = insertByStem x (sortByStem l) := rfl
    have hperm : ∀ (f : DirFile) (m : List DirFile),
        (insertByStem f m).Perm (f :: m) := by
      intro f m
      induction m with
      | nil => simp [insertByStem]
      | cons g gs ihm =>
        unfold insertByStem
        by_cases h : strLe f.stem g.stem = true
        · simp [h]
        · simp only [h, Bool.false_eq_true, if_false]
          exact (List.Perm.cons g ihm).trans (List.Perm.swap f g gs)
    rw [hstep]
    exact (hperm x (sortByStem l)).trans (List.Perm.cons x ih)

theorem mem_sortByStem {a : DirFile} {l : List DirFile} :
    a ∈ sortByStem l ↔ a ∈ l :=
  (sortByStem_perm l).mem_iff

/-! ## Structure of a successful resolution pass -/

theorem resolve_ok_elim {p q : ProtocolDef} (h : p.resolve = .ok q) :
    ∃ structs, mapE (resolveStruct p.withMaps) p.structs = .ok structs ∧
      q = { p.withMaps with
            structs := structs,
            struct_map := dictOfPairs (structs.map (fun s => (s.name, s))) } := by
  have h' : (match mapE (resolveStruct p.withMaps) p.structs with
      | .error e => (Except.error e : Except String ProtocolDef)
      | .ok structs => Except.ok { p.withMaps with
          structs := structs,
          struct_map := dictOfPairs (structs.map (fun s => (s.name, s))) })
      = Except.ok q := h
  cases hm : mapE (resolveStruct p.withMaps) p.structs with
  | error e => rw [hm] at h'; exact absurd h' (by simp)
  | ok structs =>
    rw [hm] at h'
    simp at h'
    exact ⟨structs, rfl, h'.symm⟩

theorem resolve_intro {p : ProtocolDef} {structs : List StructDef}
    (hm : mapE (resolveStruct p.withMaps) p.structs = .ok structs) :
    p.resolve = .ok { p.withMaps with
      structs := structs,
      struct_map := dictOfPairs (structs.map (fun (s : StructDef) => (s.name, s))) } := by
  have h' : p.resolve = (match mapE (resolveStruct p.withMaps) p.structs with
      | .error e => (Except.error e : Except String ProtocolDef)
      | .ok sts => Except.ok { p.withMaps with
          structs := sts,
          struct_map := dictOfPairs (sts.map (fun (s : StructDef) => (s.name, s))) }) := rfl
  rw [h', hm]

theorem resolveStruct_ok_elim {p : ProtocolDef} {s t : StructDef}
    (h : resolveStruct p s = .ok t) :
    ∃ fields, mapE (resolveField p) s.fields = .ok fields ∧
      t = { s with fields := fields } := by
  unfold resolveStruct at h
  cases hm : mapE (resolveField p) s.fields with
  | error e => rw [hm] at h; exact absurd h (by simp)
  | ok fields =>
    rw [hm] at h
    simp at h
    exact ⟨fields, rfl, h.symm⟩

theorem resolveField_ok_elim {p : ProtocolDef} {f g : FieldDef}
    (h : resolveField p f = .ok g) :
    ∃ k, p._resolve_kind f = .ok k ∧ g = { f with kind := k } := by
  unfold resolveField at h
  cases hk : p._resolve_kind f with
  | error e => rw [hk] at h; exact absurd h (by simp)
  | ok k =>
    rw [hk] at h
    simp at h
    exact ⟨k, rfl, h.symm⟩

theorem resolveStruct_name {p : ProtocolDef} {s t : StructDef}
    (h : resolveStruct p s = .ok t) : t.name = s.name := by
  rcases resolveStruct_ok_elim h with ⟨fields, _, ht⟩
  simp [ht]

theorem resolveField_type_name {p : ProtocolDef} {f g : FieldDef}
    (h : resolveField p f = .ok g) : g.type = f.type ∧ g.name = f.name := by
  rcases resolveField_ok_elim h with ⟨k, _, hg⟩
  simp [hg]

theorem build_field_ok_elim {raw : RawField} {f : FieldDef}
    (hf : _build_field raw = .ok f) :
    ∃ expected, field_expected raw = .ok expected ∧
      f.length = field_length raw ∧ f.expected = expected := by
  unfold _build_field at hf
  cases hx : field_expected raw with
  | error e => rw [hx] at hf; exact absurd hf (by simp)
  | ok expected =>
    rw [hx] at hf
    simp at hf
    exact ⟨expected, rfl, by rw [← hf], by rw [← hf]⟩

theorem mapE_cons_ok {α β : Type} {g : α → Except String β} {x : α} {xs : List α}
    {zs : List β} (h : mapE g (x :: xs) = .ok zs) :
    ∃ z zs2, zs = z :: zs2 ∧ g x = .ok z ∧ mapE g xs = .ok zs2 := by
  simp only [mapE] at h
  cases hx : g x with
  | error e => rw [hx] at h; exact absurd h (by simp)
  | ok y =>
    rw [hx] at h
    cases hxs : mapE g xs with
    | error e => rw [hxs] at h; exact absurd h (by simp)
    | ok ys => rw [hxs] at h; simp at h; exact ⟨y, ys, h.symm, rfl, rfl⟩

theorem mapE_append_ok {α β : Type} {g : α → Except String β} :
    ∀ {xs ys : List α} {zs : List β}, mapE g (xs ++ ys) = .ok zs →
      ∃ zs1 zs2, zs = zs1 ++ zs2 ∧ mapE g xs = .ok zs1 ∧ mapE g ys = .ok zs2 := by
  intro xs
  induction xs with
  | nil => intro ys zs h; exact ⟨[], zs, rfl, rfl, h⟩
  | cons x xs ih =>
    intro ys zs h
    rw [List.cons_append] at h
    rcases mapE_cons_ok h with ⟨z, zs2, hzs, hx, hrest⟩
    rcases ih hrest with ⟨zs1, zs2b, hz2, hxs, hys⟩
    refine ⟨z :: zs1, zs2b, by rw [hzs, hz2]; rfl, ?_, hys⟩
    simp [mapE, hx, hxs]

theorem findPairs {α : Type} (nameOf : α → String) (l : List α) (t : String) :
    (l.map (fun a => (nameOf a, a))).find? (fun x => x.1 == t)
      = (l.find? (fun a => nameOf a == t)).map (fun a => (nameOf a, a)) := by
  induction l with
  | nil => rfl
  | cons x l ih =>
    by_cases hx : (nameOf x == t) = true
    · simp [List.find?, hx]
    · simp [List.find?, hx, ih]

theorem dictLookup_pairs {α : Type} (nameOf : α → String) (l : List α)
    (t : String) :
    dictLookup (dictOfPairs (l.map (fun a => (nameOf a, a)))) t
      = l.reverse.find? (fun a => nameOf a == t) := by
  rw [dictLookup_ofPairs, ← List.map_reverse, findPairs]
  cases l.reverse.find? (fun a => nameOf a == t) <;> rfl

/-- The reserved type markers checked before any symbol table. -/
def reservedMarker (t : String) : Prop :=
  t = "padding" ∨ dictMem BITFIELD_TYPES t = true ∨ t = "bytes" ∨ t = "string"
    ∨ t = "array"

instance (t : String) : Decidable (reservedMarker t) := by
  unfold reservedMarker
  infer_instance

theorem not_reserved_conds {t : String} (h : ¬ reservedMarker t) :
    (t == "padding") = false ∧ dictMem BITFIELD_TYPES t = false ∧
      (t == "bytes") = false ∧ (t == "string") = false ∧ (t == "array") = false := by
  unfold reservedMarker at h
  push_neg at h
  obtain ⟨h1, h2, h3, h4, h5⟩ := h
  refine ⟨by simpa using h1, ?_, by simpa using h3, by simpa using h4, by simpa using h5⟩
  cases hb : dictMem BITFIELD_TYPES t
  · rfl
  · exact absurd hb h2

/-- The kind a field resolves to depends only on the field type and name and
on the keys of the two symbol tables. -/
theorem resolve_kind_congr {p p' : ProtocolDef} {f f' : FieldDef}
    (henum : dictMem p'.enum_map f.type = dictMem p.enum_map f.type)
    (hstruct : dictMem p'.struct_map f.type = dictMem p.struct_map f.type)
    (ht : f'.type = f.type) (hn : f'.name = f.name) :
    p'._resolve_kind f' = p._resolve_kind f := by
  unfold ProtocolDef._resolve_kind
  rw [ht, hn, henum, hstruct]

theorem anyMapGen {α β : Type} (f : α → β) (l : List α) (p : β → Bool) :
    (l.map f).any p = l.any (fun a => p (f a)) := by
  induction l with
  | nil => rfl
  | cons x l ih => simp only [List.map_cons, List.any_cons, ih]

theorem anyName_eq {l l' : List StructDef}
    (h : l.map (fun s => s.name) = l'.map (fun s => s.name)) (t : String) :
    l.any (fun s => s.name == t) = l'.any (fun s => s.name == t) :=
  calc l.any (fun s => s.name == t)
      = (l.map (fun s => s.name)).any (fun x => x == t) :=
        (anyMapGen (fun s => s.name) l (fun x => x == t)).symm
    _ = (l'.map (fun s => s.name)).any (fun x => x == t) := by rw [h]
    _ = l'.any (fun s => s.name == t) :=
        anyMapGen (fun s => s.name) l' (fun x => x == t)

theorem dictMem_pairs_any {α : Type} (l : List α) (nameOf : α → String)
    (t : String) :
    dictMem (dictOfPairs (l.map (fun a => (nameOf a, a)))) t
      = l.any (fun a => nameOf a == t) := by
  rw [dictMem_ofPairs, anyMapGen]

/-- Field-level view of a successful resolution pass: the field at position
(i, j) comes out with exactly the kind _resolve_kind computes for the parsed
field, over the symbol tables of the whole unit. -/
theorem fieldAt_resolve {p q : ProtocolDef} (h : p.resolve = .ok q) (i j : Nat)
    (f0 : FieldDef)
    (hf : (p.structs[i]?.bind (fun s => s.fields[j]?)) = some f0) :
    ∃ k, p.withMaps._resolve_kind f0 = .ok k ∧
      (q.structs[i]?.bind (fun s => s.fields[j]?)) = some { f0 with kind := k } := by
  rcases resolve_ok_elim h with ⟨structs, hm, hq⟩
  cases hsi : p.structs[i]? with
  | none => rw [hsi] at hf; simp at hf
  | some s0 =>
    rw [hsi] at hf
    have hf' : s0.fields[j]? = some f0 := hf
    rcases mapE_ok_get hm i s0 hsi with ⟨s1, hs1, hrs⟩
    rcases resolveStruct_ok_elim hrs with ⟨fields, hmf, hts⟩
    rcases mapE_ok_get hmf j f0 hf' with ⟨f1, hf1, hrf⟩
    rcases resolveField_ok_elim hrf with ⟨k, hk, hfk⟩
    refine ⟨k, hk, ?_⟩
    have hqs : q.structs = structs := by rw [hq]
    rw [hqs, hs1]
    have hfin : s1.fields[j]? = some { f0 with kind := k } := by
      rw [hts]
      show fields[j]? = some { f0 with kind := k }
      rw [hf1, hfk]
    exact hfin

/-! ## Claims -/

/-- Claim C1: resolve classifies every field of every struct through the
fixed priority cascade of _resolve_kind: the reserved markers (padding, the
bitfield variants, bytes, string, array) first, then the unit enum table,
then its struct table, then the primitive registry; a type string present
both as an enum name and as a primitive name resolves to ENUM, and a string
matching none of the categories makes resolution fail. -/
theorem resolve_classifies_by_priority (p : ProtocolDef) (f : FieldDef) :
    (f.type = "padding" → p._resolve_kind f = .ok .PADDING)
    ∧ (f.type ≠ "padding" → dictMem BITFIELD_TYPES f.type = true →
        p._resolve_kind f = .ok .BITFIELD)
    ∧ (f.type = "bytes" → p._resolve_kind f = .ok .BYTES)
    ∧ (f.type = "string" → p._resolve_kind f = .ok .STRING)
    ∧ (f.type = "array" → p._resolve_kind f = .ok .ARRAY)
    ∧ (¬ reservedMarker f.type → dictMem p.enum_map f.type = true →
        p._resolve_kind f = .ok .ENUM)
    ∧ (¬ reservedMarker f.type → dictMem p.enum_map f.type = false →
        dictMem p.struct_map f.type = true → p._resolve_kind f = .ok .STRUCT)
    ∧ (¬ reservedMarker f.type → dictMem p.enum_map f.type = false →
        dictMem p.struct_map f.type = false → dictMem PRIMITIVES f.type = true →
        p._resolve_kind f = .ok .PRIMITIVE)
    ∧ (¬ reservedMarker f.type → dictMem p.enum_map f.type = false →
        dictMem p.struct_map f.type = false → dictMem PRIMITIVES f.type = false →
        ∃ e, p._resolve_kind f = .error e)
    ∧ (∀ q, p.resolve = .ok q → ∀ (i j : Nat) (f0 : FieldDef),
        (p.structs[i]?.bind (fun s => s.fields[j]?)) = some f0 →
        ∃ k, p.withMaps._resolve_kind f0 = .ok k ∧
          (q.structs[i]?.bind (fun s => s.fields[j]?)) = some { f0 with kind := k }) := by
  refine ⟨?_, ?_, ?_, ?_, ?_, ?_, ?_, ?_, ?_, ?_⟩
  · intro h
    unfold ProtocolDef._resolve_kind
    rw [h]
    rfl
  · intro h1 h2
    have h1f : (f.type == "padding") = false := by simpa using h1
    simp [ProtocolDef._resolve_kind, h1f, h2]
  · intro h
    unfold ProtocolDef._resolve_kind
    rw [h]
    rfl
  · intro h
    unfold ProtocolDef._resolve_kind
    rw [h]
    rfl
  · intro h
    unfold ProtocolDef._resolve_kind
    rw [h]
    rfl
  · intro hres henum
    obtain ⟨h1, h2, h3, h4, h5⟩ := not_reserved_conds hres
    simp [ProtocolDef._resolve_kind, h1, h2, h3, h4, h5, henum]
  · intro hres henum hstruct
    obtain ⟨h1, h2, h3, h4, h5⟩ := not_reserved_conds hres
    simp [ProtocolDef._resolve_kind, h1, h2, h3, h4, h5, henum, hstruct]
  · intro hres henum hstruct hprim
    obtain ⟨h1, h2, h3, h4, h5⟩ := not_reserved_conds hres
    simp [ProtocolDef._resolve_kind, h1, h2, h3, h4, h5, henum, hstruct, hprim]
  · intro hres henum hstruct hprim
    obtain ⟨h1, h2, h3, h4, h5⟩ := not_reserved_conds hres
    refine ⟨"Unknown type \x27" ++ f.type ++ "\x27 in field \x27" ++ f.name ++ "\x27", ?_⟩
    simp [ProtocolDef._resolve_kind, h1, h2, h3, h4, h5, henum, hstruct, hprim]
  · intro q hq i j f0 hf
    exact fieldAt_resolve hq i j f0 hf

/-- A unit whose enum table shadows the primitive name u8, plus one field of
each interesting type string. -/
def pC1 : ProtocolDef := ProtocolDef.withMaps
  { name := "Shadow"
  , enums := [{ name := "u8", underlying_type := "u16", values := [⟨"A", 1, ""⟩] }]
  , structs := [{ name := "S", fields := [{ name := "f", type := "u8" }] }] }

/-- Witness for C1 at a concrete unit: the enum-shadowed primitive name u8
resolves to ENUM, and an unknown name resolves to an error. -/
theorem resolve_classifies_by_priority_witness :
    dictMem pC1.enum_map "u8" = true ∧ dictMem PRIMITIVES "u8" = true
    ∧ pC1._resolve_kind { name := "f", type := "u8" } = .ok .ENUM
    ∧ (∃ e, pC1._resolve_kind { name := "x", type := "frobnicate" } = .error e) := by
  refine ⟨by decide, by decide, ?_, ?_⟩
  · exact (resolve_classifies_by_priority pC1 { name := "f", type := "u8" }).2.2.2.2.2.1
      (by decide) (by decide)
  · exact (resolve_classifies_by_priority pC1
      { name := "x", type := "frobnicate" }).2.2.2.2.2.2.2.2.1
      (by decide) (by decide) (by decide) (by decide)

/-- Claim C3: a field whose declared type string is the name of any struct
of the same unit, in particular one declared later, resolves to the STRUCT
kind, because the kind is computed over the symbol tables of the fully
parsed unit. -/
theorem struct_forward_reference (p q : ProtocolDef) (h : p.resolve = .ok q)
    (i j : Nat) (f0 : FieldDef)
    (hf : (p.structs[i]?.bind (fun s => s.fields[j]?)) = some f0)
    (hs : p.structs.any (fun s => s.name == f0.type) = true)
    (hres : ¬ reservedMarker f0.type)
    (henum : p.enums.any (fun e => e.name == f0.type) = false) :
    ∃ f1, (q.structs[i]?.bind (fun s => s.fields[j]?)) = some f1 ∧
      f1.kind = .STRUCT := by
  rcases fieldAt_resolve h i j f0 hf with ⟨k, hk, hq⟩
  have hmem : dictMem p.withMaps.struct_map f0.type = true := by
    show dictMem (dictOfPairs (p.structs.map (fun s => (s.name, s)))) f0.type = true
    rw [dictMem_pairs_any]
    exact hs
  have henm : dictMem p.withMaps.enum_map f0.type = false := by
    show dictMem (dictOfPairs (p.enums.map (fun e => (e.name, e)))) f0.type = false
    rw [dictMem_pairs_any]
    exact henum
  obtain ⟨h1, h2, h3, h4, h5⟩ := not_reserved_conds hres
  have hcalc : p.withMaps._resolve_kind f0 = .ok .STRUCT := by
    simp [ProtocolDef._resolve_kind, h1, h2, h3, h4, h5, henm, hmem]
  rw [hcalc] at hk
  simp at hk
  subst hk
  exact ⟨_, hq, rfl⟩

instance : Inhabited ProtocolDef := ⟨{ name := "" }⟩

/-- A unit where the first struct refers to the second, declared after it. -/
def pC3 : ProtocolDef :=
  { name := "Nested"
  , structs :=
      [ { name := "Outer", fields := [{ name := "inner", type := "Inner" }] }
      , { name := "Inner", fields := [{ name := "x", type := "u8" }] } ] }

def qC3 : ProtocolDef := pC3.resolve.toOption.getD default

/-- Witness for C3: the forward reference from Outer to the later struct
Inner resolves to STRUCT. -/
theorem struct_forward_reference_witness :
    pC3.resolve = .ok qC3 ∧
    ∃ f1, (qC3.structs[0]?.bind (fun s => s.fields[0]?)) = some f1 ∧
      f1.kind = .STRUCT := by
  refine ⟨rfl, ?_⟩
  exact struct_forward_reference pC3 qC3 rfl 0 0
    { name := "inner", type := "Inner" } rfl (by decide) (by decide) (by decide)

/-- A unit with one unresolvable field, for C4. -/
def pC4 : ProtocolDef :=
  { name := "MyProto"
  , structs := [{ name := "MyStruct"
                , fields := [{ name := "x", type := "frobnicate" }] }] }

def msgC4 : String := "Unknown type \x27frobnicate\x27 in field \x27x\x27"

/-- Counterexample for C4: the unresolved-symbol error names the field, but
the message carries neither the unit name nor the entity (struct) name, so
the error does not carry unit and entity identity. -/
theorem unresolved_error_lacks_unit_and_entity :
    pC4.resolve = .error msgC4
    ∧ ¬ ("MyProto".data <:+: msgC4.data)
    ∧ ¬ ("MyStruct".data <:+: msgC4.data) := by
  refine ⟨rfl, by decide, by decide⟩

/-- Claim C4 (amended): when a field type string matches no reserved
marker, no enum, no struct and no primitive, _resolve_kind fails with an
unresolved-symbol error naming the field and its declared type; the message
carries only the field identity. -/
theorem unresolved_error_names_field_and_type (p : ProtocolDef) (f : FieldDef)
    (hres : ¬ reservedMarker f.type)
    (henum : dictMem p.enum_map f.type = false)
    (hstruct : dictMem p.struct_map f.type = false)
    (hprim : dictMem PRIMITIVES f.type = false) :
    p._resolve_kind f =
      .error ("Unknown type \x27" ++ f.type ++ "\x27 in field \x27" ++ f.name ++ "\x27") := by
  obtain ⟨h1, h2, h3, h4, h5⟩ := not_reserved_conds hres
  simp [ProtocolDef._resolve_kind, h1, h2, h3, h4, h5, henum, hstruct, hprim]

/-- Witness for the amended C4 at the concrete failing unit. -/
theorem unresolved_error_names_field_and_type_witness :
    pC4.withMaps._resolve_kind { name := "x", type := "frobnicate" } = .error msgC4 :=
  unresolved_error_names_field_and_type pC4.withMaps
    { name := "x", type := "frobnicate" } (by decide) (by decide) (by decide) (by decide)

/-- Claim C5: resolution is idempotent: a protocol on which resolve
succeeded is a fixed point of resolve, so a second call succeeds and leaves
every field kind and both lookup tables unchanged. -/
theorem resolve_idempotent (p q : ProtocolDef) (h : p.resolve = .ok q) :
    q.resolve = .ok q := by
  rcases resolve_ok_elim h with ⟨structs, hm, hq⟩
  have hqenums : q.enums = p.enums := by rw [hq]; rfl
  have hqstructs : q.structs = structs := by rw [hq]
  have hqemap : q.enum_map = dictOfPairs (p.enums.map (fun e => (e.name, e))) := by
    rw [hq]; rfl
  have hqsmap : q.struct_map = dictOfPairs (structs.map (fun s => (s.name, s))) := by
    rw [hq]
  have hnames : structs.map (fun s => s.name) = p.structs.map (fun s => s.name) :=
    mapE_ok_map_eq (fun _ _ hab => resolveStruct_name hab) hm
  have e1 : dictOfPairs (q.enums.map (fun e => (e.name, e))) = q.enum_map := by
    rw [hqenums, hqemap]
  have e2 : dictOfPairs (q.structs.map (fun s => (s.name, s))) = q.struct_map := by
    rw [hqstructs, hqsmap]
  have hqw : q.withMaps = q := by
    unfold ProtocolDef.withMaps
    rw [e1, e2]
  have hfieldfix : ∀ s1 ∈ structs, resolveStruct q s1 = .ok s1 := by
    intro s1 hs1
    rcases mapE_ok_mem hm s1 hs1 with ⟨s0, _, hrs⟩
    rcases resolveStruct_ok_elim hrs with ⟨fields, hmf, hts⟩
    have hffix : ∀ f1 ∈ fields, resolveField q f1 = .ok f1 := by
      intro f1 hf1
      rcases mapE_ok_mem hmf f1 hf1 with ⟨f0, _, hrf⟩
      rcases resolveField_ok_elim hrf with ⟨k, hk, hfk⟩
      have hcong : q._resolve_kind f1 = p.withMaps._resolve_kind f0 := by
        apply resolve_kind_congr
        · rw [hqemap]; rfl
        · rw [hqsmap]
          show dictMem (dictOfPairs (structs.map (fun s => (s.name, s)))) f0.type
            = dictMem (dictOfPairs (p.structs.map (fun s => (s.name, s)))) f0.type
          rw [dictMem_pairs_any, dictMem_pairs_any]
          exact anyName_eq hnames f0.type
        · rw [hfk]
        · rw [hfk]
      unfold resolveField
      rw [hcong, hk, hfk]
    have hmfix : mapE (resolveField q) s1.fields = .ok s1.fields := by
      apply mapE_fix
      intro f1 hf1
      exact hffix f1 (by rw [hts] at hf1; exact hf1)
    unfold resolveStruct
    rw [hmfix]
  have hmain : mapE (resolveStruct q.withMaps) q.structs = .ok structs := by
    rw [hqw, hqstructs]
    exact mapE_fix hfieldfix
  rw [resolve_intro hmain]
  have hfix : ({ q.withMaps with
      structs := structs,
      struct_map := dictOfPairs (structs.map (fun (s : StructDef) => (s.name, s))) }
        : ProtocolDef) = q := by
    rw [hqw, ← hqsmap, ← hqstructs]
  rw [hfix]

/-- A small unit for the idempotence witness. -/
def pC5 : ProtocolDef :=
  { name := "Idem"
  , enums := [{ name := "Color", underlying_type := "u8"
              , values := [⟨"Red", 0, ""⟩] }]
  , structs := [{ name := "Pixel"
                , fields := [ { name := "c", type := "Color" }
                            , { name := "v", type := "u8" } ] }] }

def qC5 : ProtocolDef := pC5.resolve.toOption.getD default

/-- Witness for C5: a concrete resolved unit resolves to itself again. -/
theorem resolve_idempotent_witness :
    pC5.resolve = .ok qC5 ∧ qC5.resolve = .ok qC5 :=
  ⟨rfl, resolve_idempotent pC5 qC5 rfl⟩

/-- A unit that fails resolution and a unit that loads fine, for C2. -/
def rawBadC2 : RawProtocol :=
  { name := "BadUnit"
  , structs := some [{ name := "S"
                     , fields := [{ name := "x", type := "nonexistent_type_xyz" }] }] }

def rawGoodC2 : RawProtocol :=
  { name := "GoodUnit"
  , structs := some [{ name := "Msg"
                     , fields := [{ name := "value", type := "u8" }] }] }

def dirC2 : List DirFile := [⟨"a", "yaml", rawBadC2⟩, ⟨"b", "yaml", rawGoodC2⟩]

/-- Counterexample for C2: with unit a failing resolution, sibling unit b
loads fine on its own, yet the directory loader propagates the failure and
the generation loop of main compiles no unit at all, so the sibling is not
compiled to an output artifact. -/
theorem batch_abort_counterexample :
    (∃ p, load_protocol rawGoodC2 = .ok p)
    ∧ load_protocols_from_dir "input" dirC2 =
        .error "Unknown type \x27nonexistent_type_xyz\x27 in field \x27x\x27"
    ∧ mainCompiledUnits "input" dirC2 = [] := by
  exact ⟨⟨_, rfl⟩, rfl, rfl⟩

/-- Claim C2 (amended): when any .yaml unit of a directory batch fails to
load, for example by failing resolution, the whole batch aborts with that
failure: the loader returns an error and no unit of the batch, the failing
one or a sibling, is compiled to an output artifact; the batch result is
failure. -/
theorem batch_abort_on_unit_failure (dirName : String) (files : List DirFile)
    (f : DirFile) (hf : f ∈ files) (hext : f.ext = "yaml")
    (e : String) (herr : load_protocol f.content = .error e) :
    (∃ e2, load_protocols_from_dir dirName files = .error e2)
    ∧ mainCompiledUnits dirName files = [] := by
  have hsel : f ∈ selectedFiles files := by
    unfold selectedFiles
    apply List.mem_append_left
    rw [mem_sortByStem]
    exact List.mem_filter.2 ⟨hf, by simp [hext]⟩
  have hnotok : ∀ ps, mapE (fun g => load_protocol g.content) (selectedFiles files)
      ≠ .ok ps := by
    intro ps hok
    rcases mapE_ok_forall hok f hsel with ⟨b, hb⟩
    rw [herr] at hb
    exact absurd hb (by simp)
  cases hm : mapE (fun g => load_protocol g.content) (selectedFiles files) with
  | ok ps => exact absurd hm (hnotok ps)
  | error e2 =>
    constructor
    · refine ⟨e2, ?_⟩
      unfold load_protocols_from_dir
      rw [hm]
    · unfold mainCompiledUnits load_protocols_from_dir
      rw [hm]

/-- Witness for the amended C2 at the concrete two-unit directory. -/
theorem batch_abort_on_unit_failure_witness :
    (⟨"a", "yaml", rawBadC2⟩ : DirFile) ∈ dirC2
    ∧ load_protocol rawBadC2 =
        .error "Unknown type \x27nonexistent_type_xyz\x27 in field \x27x\x27"
    ∧ (∃ e2, load_protocols_from_dir "input" dirC2 = .error e2)
    ∧ mainCompiledUnits "input" dirC2 = [] := by
  have h := batch_abort_on_unit_failure "input" dirC2 ⟨"a", "yaml", rawBadC2⟩
    (by decide) rfl "Unknown type \x27nonexistent_type_xyz\x27 in field \x27x\x27" rfl
  exact ⟨by decide, rfl, h.1, h.2⟩

/-- The raw documents used by the C7 witnessless concrete theorem. -/
def rawEnumC7 : RawEnum :=
  { name := "Cmd", type := "u16"
  , values := [{ name := "Init", value := .str "0xFF01" }] }

def rawFieldC7 : RawField :=
  { name := "magic", type := "u32", expected := some (.str "0xDEADBEEF") }

/-- Claim C7: hexadecimal text literals are resolved to their exact integer
values at model build time: the enum value given as the string 0xFF01 is
stored as the integer 65281 and the expected value given as the string
0xDEADBEEF is stored as the integer 3735928559. -/
theorem hex_literals_resolved :
    (_build_enum rawEnumC7).map (fun e => e.values.map (fun v => v.value))
      = .ok [65281]
    ∧ (_build_field rawFieldC7).map (fun f => f.expected)
      = .ok (some (.int 3735928559)) :=
  ⟨rfl, rfl⟩

/-- Claim C6: directory loading takes each file stem at most once, prefers
stem.yaml over stem.yml when both are present, and fails with an error when
the directory holds no .yaml or .yml file at all. -/
theorem dir_dedup_and_empty (dirName : String) (files : List DirFile)
    (hnodup : (files.map (fun f => (f.stem, f.ext))).Nodup) :
    ((selectedFiles files).map (fun f => f.stem)).Nodup
    ∧ (∀ f ∈ files, f.ext = "yml" →
        (∃ g ∈ files, g.stem = f.stem ∧ g.ext = "yaml") →
        f ∉ selectedFiles files)
    ∧ (∀ g ∈ files, g.ext = "yaml" → g ∈ selectedFiles files)
    ∧ ((∀ f ∈ files, f.ext ≠ "yaml" ∧ f.ext ≠ "yml") →
        load_protocols_from_dir dirName files =
          .error ("No YAML files found in " ++ dirName)) := by
  have hstems : ∀ c : String,
      ((files.filter (fun f => f.ext == c)).map (fun f => f.stem)).Nodup := by
    intro c
    have hsubnd : ((files.filter (fun f => f.ext == c)).map
        (fun f => (f.stem, f.ext))).Nodup :=
      hnodup.sublist ((List.filter_sublist files).map _)
    have hsnd : ∀ x ∈ (files.filter (fun f => f.ext == c)).map
        (fun f => (f.stem, f.ext)), x.2 = c := by
      intro x hx
      rcases List.mem_map.1 hx with ⟨f, hf, hfx⟩
      have hc := List.of_mem_filter hf
      rw [← hfx]
      simpa using hc
    have hrw : (files.filter (fun f => f.ext == c)).map (fun f => f.stem)
        = ((files.filter (fun f => f.ext == c)).map
            (fun f => (f.stem, f.ext))).map Prod.fst := by
      rw [List.map_map]
      rfl
    rw [hrw]
    refine List.Nodup.map_on ?_ hsubnd
    intro x hx y hy hxy
    have hx2 := hsnd x hx
    have hy2 := hsnd y hy
    rcases x with ⟨xs, xe⟩
    rcases y with ⟨ys, ye⟩
    simp only at hxy hx2 hy2
    rw [hxy, hx2, hy2]
  have hyamlpart : ∀ x ∈ sortByStem (files.filter (fun f => f.ext == "yaml")),
      x ∈ files ∧ x.ext = "yaml" := by
    intro x hx
    rw [mem_sortByStem] at hx
    exact ⟨List.mem_of_mem_filter hx, by simpa using List.of_mem_filter hx⟩
  have hymlpart : ∀ x ∈ (sortByStem (files.filter (fun f => f.ext == "yml"))).filter
      (fun f => !(files.any (fun g => g.stem == f.stem && g.ext == "yaml"))),
      x ∈ files ∧ x.ext = "yml" ∧
        files.any (fun g => g.stem == x.stem && g.ext == "yaml") = false := by
    intro x hx
    have h1 := List.mem_of_mem_filter hx
    have hcond := List.of_mem_filter hx
    rw [mem_sortByStem] at h1
    refine ⟨List.mem_of_mem_filter h1, by simpa using List.of_mem_filter h1, ?_⟩
    simpa using hcond
  refine ⟨?_, ?_, ?_, ?_⟩
  · unfold selectedFiles
    rw [List.map_append, List.nodup_append]
    refine ⟨?_, ?_, ?_⟩
    · exact (((sortByStem_perm
        (files.filter (fun f => f.ext == "yaml"))).map
          (fun f => f.stem)).nodup_iff).2 (hstems "yaml")
    · have hnd : ((sortByStem (files.filter (fun f => f.ext == "yml"))).map
          (fun f => f.stem)).Nodup :=
        (((sortByStem_perm _).map (fun f => f.stem)).nodup_iff).2 (hstems "yml")
      exact hnd.sublist ((List.filter_sublist _).map _)
    · intro s hs1 hs2
      rcases List.mem_map.1 hs1 with ⟨g, hg, hgs⟩
      rcases List.mem_map.1 hs2 with ⟨f, hf, hfs⟩
      obtain ⟨hgf, hge⟩ := hyamlpart g hg
      obtain ⟨hff, hfe, hfany⟩ := hymlpart f hf
      have hany : files.any (fun g2 => g2.stem == f.stem && g2.ext == "yaml")
          = true :=
        List.any_eq_true.2 ⟨g, hgf, by simp [hgs, hfs, hge]⟩
      rw [hfany] at hany
      exact Bool.false_ne_true hany
  · rintro f hf hext ⟨g, hg, hgs, hge⟩ hmem
    unfold selectedFiles at hmem
    rcases List.mem_append.1 hmem with hm | hm
    · obtain ⟨_, hfe⟩ := hyamlpart f hm
      rw [hext] at hfe
      exact absurd hfe (by decide)
    · obtain ⟨_, _, hfany⟩ := hymlpart f hm
      have hany : files.any (fun g2 => g2.stem == f.stem && g2.ext == "yaml")
          = true :=
        List.any_eq_true.2 ⟨g, hg, by simp [hgs, hge]⟩
      rw [hfany] at hany
      exact Bool.false_ne_true hany
  · intro g hg hge
    unfold selectedFiles
    apply List.mem_append_left
    rw [mem_sortByStem]
    exact List.mem_filter.2 ⟨hg, by simp [hge]⟩
  · intro hno
    have h1 : files.filter (fun f => f.ext == "yaml") = [] := by
      rw [List.filter_eq_nil_iff]
      intro a ha
      simp [(hno a ha).1]
    have h2 : files.filter (fun f => f.ext == "yml") = [] := by
      rw [List.filter_eq_nil_iff]
      intro a ha
      simp [(hno a ha).2]
    unfold load_protocols_from_dir selectedFiles
    rw [h1, h2]
    rfl

/-- A tiny valid document, used as file content in the C6 witness. -/
def rawC6 : RawProtocol :=
  { name := "M"
  , structs := some [{ name := "Msg", fields := [{ name := "v", type := "u8" }] }] }

def dirC6 : List DirFile :=
  [⟨"a", "yaml", rawC6⟩, ⟨"a", "yml", rawC6⟩, ⟨"b", "yml", rawC6⟩]

/-- Witness for C6: dedup of the stem a keeps only a.yaml, stems of the
selection are distinct, and a directory with no YAML files errors. -/
theorem dir_dedup_and_empty_witness :
    ((selectedFiles dirC6).map (fun f => f.stem)).Nodup
    ∧ (⟨"a", "yml", rawC6⟩ : DirFile) ∉ selectedFiles dirC6
    ∧ (⟨"a", "yaml", rawC6⟩ : DirFile) ∈ selectedFiles dirC6
    ∧ load_protocols_from_dir "d" [⟨"c", "txt", rawC6⟩] =
        .error "No YAML files found in d" := by
  have h := dir_dedup_and_empty "d" dirC6 (by decide)
  refine ⟨h.1, ?_, h.2.2.1 ⟨"a", "yaml", rawC6⟩ (by decide) rfl, ?_⟩
  · exact h.2.1 ⟨"a", "yml", rawC6⟩ (by decide) rfl
      ⟨⟨"a", "yaml", rawC6⟩, by decide, rfl, rfl⟩
  · exact (dir_dedup_and_empty "d" [⟨"c", "txt", rawC6⟩] (by decide)).2.2.2
      (by decide)

/-- Claim C8: duplicate enum or struct names within one unit are not
rejected: resolve builds the lookup tables by dict insertion over the
declaration lists, so the later declaration wins. After a successful
resolve the enum table maps a duplicated name to its last declaration
carrying it, and the struct table maps it to the resolved image of the last
struct declaration carrying it, which is what fields of that type name
resolve against. -/
theorem duplicate_names_later_wins (p q : ProtocolDef) (h : p.resolve = .ok q)
    (n : String) (l1 l2 : List EnumDef) (e : EnumDef)
    (he : p.enums = l1 ++ e :: l2) (hen : e.name = n)
    (hlast : ∀ e2 ∈ l2, e2.name ≠ n)
    (m : String) (s1 s2 : List StructDef) (s : StructDef)
    (hs : p.structs = s1 ++ s :: s2) (hsn : s.name = m)
    (hslast : ∀ t ∈ s2, t.name ≠ m) :
    dictLookup q.enum_map n = some e
    ∧ ∃ t, dictLookup q.struct_map m = some t
        ∧ resolveStruct p.withMaps s = .ok t := by
  rcases resolve_ok_elim h with ⟨structs, hm, hq⟩
  have hqemap : q.enum_map
      = dictOfPairs (p.enums.map (fun e2 => (e2.name, e2))) := by
    rw [hq]; rfl
  have hqsmap : q.struct_map
      = dictOfPairs (structs.map (fun t => (t.name, t))) := by
    rw [hq]
  constructor
  · rw [hqemap, dictLookup_pairs, he, List.reverse_append, List.reverse_cons,
      List.append_assoc, findQ_append]
    have hnone : l2.reverse.find? (fun a => a.name == n) = none := by
      rw [List.find?_eq_none]
      intro a ha hbeq
      exact absurd (by simpa using hbeq) (hlast a (List.mem_reverse.1 ha))
    rw [hnone]
    simp [List.find?, hen]
  · rw [hs] at hm
    rcases mapE_append_ok hm with ⟨zs1, zs2, hzs, _, hm2⟩
    rcases mapE_cons_ok hm2 with ⟨t, zs3, hz2, hts, hm3⟩
    refine ⟨t, ?_, hts⟩
    have htn : t.name = m := by rw [resolveStruct_name hts, hsn]
    have hz3names : zs3.map (fun u => u.name) = s2.map (fun u => u.name) :=
      mapE_ok_map_eq (fun _ _ hab => resolveStruct_name hab) hm3
    have hz3 : ∀ u ∈ zs3, u.name ≠ m := by
      intro u hu hum
      have hmem : u.name ∈ zs3.map (fun u2 => u2.name) :=
        List.mem_map_of_mem _ hu
      rw [hz3names] at hmem
      rcases List.mem_map.1 hmem with ⟨v, hv, hvn⟩
      exact hslast v hv (by rw [hvn, hum])
    rw [hqsmap, dictLookup_pairs, hzs, hz2, List.reverse_append,
      List.reverse_cons, List.append_assoc, findQ_append]
    have hnone : zs3.reverse.find? (fun a => a.name == m) = none := by
      rw [List.find?_eq_none]
      intro a ha hbeq
      exact absurd (by simpa using hbeq) (hz3 a (List.mem_reverse.1 ha))
    rw [hnone]
    simp [List.find?, htn]

/-- The duplicate declarations of the C8 witness unit. -/
def eC8a : EnumDef :=
  { name := "Color", underlying_type := "u8", values := [⟨"Red", 0, ""⟩] }

def eC8b : EnumDef :=
  { name := "Color", underlying_type := "u16", values := [⟨"Green", 5, ""⟩] }

def sC8a : StructDef := { name := "S", fields := [{ name := "a", type := "u8" }] }

def sC8b : StructDef :=
  { name := "S", fields := [{ name := "c", type := "Color" }] }

def pC8 : ProtocolDef :=
  { name := "Dup", enums := [eC8a, eC8b], structs := [sC8a, sC8b] }

def qC8 : ProtocolDef := pC8.resolve.toOption.getD default

/-- Witness for C8: the unit with two enums named Color and two structs
named S resolves without rejection, and both tables hold the later
declarations. -/
theorem duplicate_names_later_wins_witness :
    pC8.resolve = .ok qC8
    ∧ dictLookup qC8.enum_map "Color" = some eC8b
    ∧ (∃ t, dictLookup qC8.struct_map "S" = some t
        ∧ resolveStruct pC8.withMaps sC8b = .ok t) := by
  have h := duplicate_names_later_wins pC8 qC8 rfl "Color" [eC8a] [] eC8b rfl rfl
    (by decide) "S" [sC8a] [] sC8b rfl rfl (by decide)
  exact ⟨rfl, h.1, h.2⟩

/-- Claim C9: a string expected value is converted to an integer exactly
when it starts with the lowercase prefix 0x, in which case it is parsed in
base 16; every other string, including decimal digit strings and strings
with the uppercase prefix 0X, is stored unchanged as a string. -/
theorem expected_hex_prefix_only (raw : RawField) (s : String) (f : FieldDef)
    (hs : raw.expected = some (.str s)) (hf : _build_field raw = .ok f) :
    (py_startswith_0x s = true →
      ∃ n, pyInt s 16 = some n ∧ f.expected = some (.int n))
    ∧ (py_startswith_0x s = false → f.expected = some (.str s))
    ∧ ((∃ n, f.expected = some (.int n)) ↔ py_startswith_0x s = true) := by
  rcases build_field_ok_elim hf with ⟨expected, hx, _, hexp⟩
  unfold field_expected at hx
  rw [hs] at hx
  have hx2 : (if py_startswith_0x s = true then
      match pyInt s 16 with
      | some n => Except.ok (some (PyVal.int n))
      | none => Except.error ("invalid literal for int with base 16: " ++ s)
    else Except.ok (some (PyVal.str s))) = Except.ok expected := hx
  by_cases hpre : py_startswith_0x s = true
  · rw [if_pos hpre] at hx2
    cases hp : pyInt s 16 with
    | none => rw [hp] at hx2; simp at hx2
    | some n =>
      rw [hp] at hx2
      simp at hx2
      have hfe : f.expected = some (.int n) := by rw [hexp, ← hx2]
      refine ⟨fun _ => ⟨n, rfl, hfe⟩, ?_, ?_⟩
      · intro hc
        rw [hc] at hpre
        exact absurd hpre (by simp)
      · exact ⟨fun _ => hpre, fun _ => ⟨n, hfe⟩⟩
  · have hpf : py_startswith_0x s = false := by simpa using hpre
    rw [if_neg hpre] at hx2
    simp at hx2
    have hfe : f.expected = some (.str s) := by rw [hexp, ← hx2]
    refine ⟨?_, fun _ => hfe, ?_⟩
    · intro hc
      rw [hc] at hpf
      exact absurd hpf (by simp)
    · constructor
      · rintro ⟨n, hn⟩
        rw [hfe] at hn
        exact absurd hn (by simp)
      · intro hc
        rw [hc] at hpf
        exact absurd hpf (by simp)

instance : Inhabited FieldDef := ⟨{ name := "", type := "" }⟩

/-- The raw fields of the C9 witness: an uppercase 0X string kept verbatim
and a lowercase 0x string converted in base 16. -/
def rawC9a : RawField := { name := "e", type := "u8", expected := some (.str "0XFF") }

def fC9a : FieldDef := (_build_field rawC9a).toOption.getD default

def rawC9b : RawField := { name := "m", type := "u8", expected := some (.str "0x2a") }

def fC9b : FieldDef := (_build_field rawC9b).toOption.getD default

/-- Witness for C9 at the two concrete fields. -/
theorem expected_hex_prefix_only_witness :
    _build_field rawC9a = .ok fC9a ∧ fC9a.expected = some (.str "0XFF")
    ∧ _build_field rawC9b = .ok fC9b
    ∧ (∃ n, pyInt "0x2a" 16 = some n ∧ fC9b.expected = some (.int n)) := by
  refine ⟨rfl, ?_, rfl, ?_⟩
  · exact (expected_hex_prefix_only rawC9a "0XFF" fC9a rfl rfl).2.1 (by decide)
  · exact (expected_hex_prefix_only rawC9b "0x2a" fC9b rfl rfl).1 (by decide)

/-- Claim C10: after a field is built, its length attribute is either
absent or a string: an integer length in the source document is normalized
to its decimal string form, so no built field holds an integer length. -/
theorem length_absent_or_string (raw : RawField) (f : FieldDef)
    (hf : _build_field raw = .ok f) :
    (f.length = none ∨ ∃ s, f.length = some (.str s))
    ∧ (∀ n : Int, raw.length = some (.int n) →
        f.length = some (.str (toString n))) := by
  rcases build_field_ok_elim hf with ⟨expected, _, hlen, _⟩
  constructor
  · rw [hlen]
    unfold field_length
    cases hr : raw.length with
    | none => exact Or.inl rfl
    | some v =>
      cases v with
      | int n => exact Or.inr ⟨toString n, rfl⟩
      | str s2 => exact Or.inr ⟨s2, rfl⟩
  · intro n hn
    rw [hlen]
    unfold field_length
    rw [hn]

/-- The raw field of the C10 witness, with the integer length 16. -/
def rawC10 : RawField := { name := "data", type := "bytes", length := some (.int 16) }

def fC10 : FieldDef := (_build_field rawC10).toOption.getD default

/-- Witness for C10: the integer length 16 comes out as the string 16. -/
theorem length_absent_or_string_witness :
    _build_field rawC10 = .ok fC10
    ∧ ((fC10.length = none ∨ ∃ s, fC10.length = some (.str s))
      ∧ (∀ n : Int, rawC10.length = some (.int n) →
          fC10.length = some (.str (toString n)))) :=
  ⟨rfl, length_absent_or_string rawC10 fC10 rfl⟩
